import Mathlib

/-!
# User-API: the lock-guarded in-memory user store

A shallow embedding of `main.go`.  The five gin handlers are modelled as
functions from the process state to a response and a new process state; the
part of each handler between `db.mu.Lock()` and `db.mu.Unlock()` is one atomic
step, so a concurrent execution is a sequence of such steps.

Go slices are modelled as slice headers (`ptr`, `off`, `len`, `cap`) into a
heap of backing arrays, because `users := db.users`, `db.users[i] = ...` and
`append(db.users[:i], db.users[i+1:]...)` are only told apart from their
list counterparts by what they do to shared backing arrays.

Modelling choices:
* Go's `int` is 64 bits wide on the platforms considered, and `db.currentId++`
  wraps from `MaxInt64` to `MinInt64`.  `createUser64`, `handle64`, `serve64`
  and `run64` model this with `wrapInt64`.  `createUser`, `handle`, `serve`
  and `run` take the increment on the integers; the two agree in every state
  whose counter is below `MaxInt64` (`createUser64_eq`), hence on every run
  from the fresh store of fewer than 2^63 - 1 requests (`run64_fresh_eq`).
  Statements about runs from the fresh store are made on `run`; statements
  about every state that depend on the increment are made on the 64-bit
  handlers.  Ids are otherwise only compared for equality.
* The capacity chosen by the Go runtime when `append` reallocates is not part
  of this repository; it is the parameter `grow` (old capacity to new
  capacity), and the new capacity is never below the needed length.
* `strconv.Atoi(c.Param("id"))` is the input `idParam : Option Int`
  (`none` when it returns an error); the JSON decoding of a request body is
  the input `Option User` (`none` when the body is not JSON for a `User`).
-/

namespace UserAPI

/-! ## Data model -/

/-- The `User` struct: fields in the order of the source. -/
structure User where
  Id : Int
  Age : Int
  Email : String
  Name : String
deriving DecidableEq, Repr

/-- A Go slice header: backing array `ptr`, first element at index `off` of
that array, `len` elements visible, `cap` elements available from `off`. -/
structure Slice where
  ptr : Nat
  off : Nat
  len : Nat
  cap : Nat
deriving DecidableEq, Repr

/-- The backing arrays: array address, then index, to the element there. -/
abbrev Heap := Nat → Nat → User

/-- The `DB` struct without its mutex (critical sections are atomic steps). -/
structure DB where
  currentId : Int
  users : Slice
deriving DecidableEq, Repr

/-- The process state: the heap, the next unused array address, and the
global variable `db`. -/
structure State where
  heap : Heap
  nextPtr : Nat
  db : DB

/-! ## Machine integers -/

/-- The largest `int`, `math.MaxInt64`. -/
def MaxInt64 : Int := 9223372036854775807

/-- The smallest `int`, `math.MinInt64`. -/
def MinInt64 : Int := -9223372036854775808

/-- The 64-bit two's complement value of an integer: what Go's `int`
arithmetic yields for the mathematical result `x`. -/
def wrapInt64 (x : Int) : Int :=
  (x + 9223372036854775808) % 18446744073709551616 - 9223372036854775808

/-! ## Slices -/

/-- The zero value of `User`. -/
def User.zero : User := { Id := 0, Age := 0, Email := "", Name := "" }

/-- Effect of `a[i] = u` on the heap, for the array at `p`. -/
def Heap.store (h : Heap) (p i : Nat) (u : User) : Heap :=
  fun q j => if q = p ∧ j = i then u else h q j

/-- Writes `us` to the array at `p` from index `i` on. -/
def Heap.storeList (h : Heap) (p : Nat) : Nat → List User → Heap
  | _, [] => h
  | i, u :: us => Heap.storeList (h.store p i u) p (i + 1) us

/-- The elements a slice header shows on a heap: `s[0], ..., s[len-1]`. -/
def Heap.load (h : Heap) (s : Slice) : List User :=
  (List.range s.len).map (fun j => h s.ptr (s.off + j))

/-- The slice expression `s[:i]`. -/
def Slice.sliceTo (s : Slice) (i : Nat) : Slice :=
  { s with len := i }

/-- The slice expression `s[i:]`. -/
def Slice.sliceFrom (s : Slice) (i : Nat) : Slice :=
  { ptr := s.ptr, off := s.off + i, len := s.len - i, cap := s.cap - i }

/-- Go's built-in `append(s, elems...)`: `elems` are the values of the
appended elements, read before anything is written (the runtime copies with
memmove).  When they fit in the capacity they are written in place behind
`s`; otherwise a new array is allocated, the old elements and the new ones
are copied to it. -/
def append (grow : Nat → Nat) (h : Heap) (nextPtr : Nat) (s : Slice) (elems : List User) :
    Heap × Nat × Slice :=
  if s.len + elems.length ≤ s.cap then
    (h.storeList s.ptr (s.off + s.len) elems, nextPtr, { s with len := s.len + elems.length })
  else
    (Heap.storeList h nextPtr 0 (h.load s ++ elems), nextPtr + 1,
      { ptr := nextPtr, off := 0, len := s.len + elems.length,
        cap := max (grow s.cap) (s.len + elems.length) })

/-! ## HTTP glue -/

/-- What a handler hands to `c.JSON`. -/
inductive Body where
  | users (us : List User)
  | user (u : User)
  | error (msg : String)
  | message (msg : String)
deriving DecidableEq, Repr

/-- A response: status code and the value given to `c.JSON`. -/
structure Response where
  code : Nat
  body : Body
deriving DecidableEq, Repr

def StatusOK : Nat := 200
def StatusCreated : Nat := 201
def StatusNoContent : Nat := 204
def StatusBadRequest : Nat := 400
def StatusNotFound : Nat := 404

/-- The `binding:"required"` tags of `User`: `Age`, `Email` and `Name` must
not be the zero value of their type; `Id` carries no tag. -/
def required (u : User) : Bool :=
  u.Age != 0 && u.Email != "" && u.Name != ""

/-- The call `c.ShouldBindJSON(&u)`: `decoded` is the result of decoding the
body, `none` is returned where the source gets a non-nil error. -/
def ShouldBindJSON (decoded : Option User) : Option User :=
  match decoded with
  | none => none
  | some u => if required u then some u else none

/-- The loop `for i, u := range db.users { if u.Id == id { ...; break } }`
over the elements `us`, started at index `i`: the first index with a
matching id and the element there, or `none` when the loop runs to its end. -/
def scan (id : Int) : List User → Nat → Option (Nat × User)
  | [], _ => none
  | u :: us, i => if u.Id = id then some (i, u) else scan id us (i + 1)

/-! ## The handlers -/

/-- The state `main` (and `setupRouter`) build: `currentId: 1` and
`make([]User, 0)`. -/
def fresh : State :=
  { heap := fun _ _ => User.zero, nextPtr := 1,
    db := { currentId := 1, users := { ptr := 0, off := 0, len := 0, cap := 0 } } }

/-- The critical section of `getUsers`: `users := db.users` copies the slice
header. -/
def getUsersSection (st : State) : Slice := st.db.users

/-- The records of the store in sequence order: what `getUsers` serialises
when nothing runs between its unlock and `c.JSON`. -/
def records (st : State) : List User := st.heap.load (getUsersSection st)

/-- Handler `getUsers`, when nothing runs between its unlock and `c.JSON`. -/
def getUsers (st : State) : Response × State :=
  (⟨StatusOK, .users (st.heap.load (getUsersSection st))⟩, st)

/-- Handler `getUserById`. -/
def getUserById (st : State) (idParam : Option Int) : Response × State :=
  match idParam with
  | none => (⟨StatusBadRequest, .error "id is not a number"⟩, st)
  | some id =>
    match scan id (st.heap.load st.db.users) 0 with
    | none => (⟨StatusNotFound, .error "user not found"⟩, st)
    | some (_, user) => (⟨StatusOK, .user user⟩, st)

/-- Handler `createUser`, with `db.currentId++` taken on the integers (see
`createUser64` for the 64-bit increment).  The text of `err.Error()` comes
from the binding library; the model writes "binding error" for it. -/
def createUser (grow : Nat → Nat) (st : State) (decoded : Option User) : Response × State :=
  match ShouldBindJSON decoded with
  | none => (⟨StatusBadRequest, .error "binding error"⟩, st)
  | some u =>
    let createdUser : User := { u with Id := st.db.currentId }
    let currentId := st.db.currentId + 1
    let r := append grow st.heap st.nextPtr st.db.users [createdUser]
    (⟨StatusCreated, .user createdUser⟩,
      { heap := r.1, nextPtr := r.2.1, db := { currentId := currentId, users := r.2.2 } })

/-- Handler `createUser` with `db.currentId++` on a 64-bit `int`: the
increment wraps. -/
def createUser64 (grow : Nat → Nat) (st : State) (decoded : Option User) : Response × State :=
  match ShouldBindJSON decoded with
  | none => (⟨StatusBadRequest, .error "binding error"⟩, st)
  | some u =>
    let createdUser : User := { u with Id := st.db.currentId }
    let currentId := wrapInt64 (st.db.currentId + 1)
    let r := append grow st.heap st.nextPtr st.db.users [createdUser]
    (⟨StatusCreated, .user createdUser⟩,
      { heap := r.1, nextPtr := r.2.1, db := { currentId := currentId, users := r.2.2 } })

/-- Handler `updateUser`.  The text of `err.Error()` comes from the binding
library; the model writes "binding error" for it. -/
def updateUser (st : State) (idParam : Option Int) (decoded : Option User) : Response × State :=
  match idParam with
  | none => (⟨StatusBadRequest, .error "id is not a number"⟩, st)
  | some id =>
    match ShouldBindJSON decoded with
    | none => (⟨StatusBadRequest, .error "binding error"⟩, st)
    | some u =>
      let updatedUser : User := { u with Id := id }
      match scan id (st.heap.load st.db.users) 0 with
      | none => (⟨StatusNotFound, .error "user not found"⟩, st)
      | some (i, _) =>
        (⟨StatusOK, .user updatedUser⟩,
          { st with heap := st.heap.store st.db.users.ptr (st.db.users.off + i) updatedUser })

/-- Handler `deleteUser`. -/
def deleteUser (grow : Nat → Nat) (st : State) (idParam : Option Int) : Response × State :=
  match idParam with
  | none => (⟨StatusBadRequest, .error "id is not a number"⟩, st)
  | some id =>
    match scan id (st.heap.load st.db.users) 0 with
    | none => (⟨StatusNotFound, .error "user not found"⟩, st)
    | some (i, _) =>
      let r := append grow st.heap st.nextPtr (st.db.users.sliceTo i)
        (st.heap.load (st.db.users.sliceFrom (i + 1)))
      (⟨StatusNoContent, .message "user deleted successfully"⟩,
        { heap := r.1, nextPtr := r.2.1, db := { st.db with users := r.2.2 } })

/-! ## Request sequences -/

/-- One request to the router. -/
inductive Request where
  | getUsers
  | getUserById (idParam : Option Int)
  | createUser (decoded : Option User)
  | updateUser (idParam : Option Int) (decoded : Option User)
  | deleteUser (idParam : Option Int)
deriving DecidableEq, Repr

/-- The routes registered in `main`. -/
def handle (grow : Nat → Nat) (st : State) : Request → Response × State
  | .getUsers => getUsers st
  | .getUserById idParam => getUserById st idParam
  | .createUser decoded => createUser grow st decoded
  | .updateUser idParam decoded => updateUser st idParam decoded
  | .deleteUser idParam => deleteUser grow st idParam

/-- Serves the requests one after another: the responses in order, and the
final state. -/
def serve (grow : Nat → Nat) : State → List Request → List Response × State
  | st, [] => ([], st)
  | st, r :: rs =>
    let a := handle grow st r
    let b := serve grow a.2 rs
    (a.1 :: b.1, b.2)

/-- The state after serving the requests. -/
def run (grow : Nat → Nat) (st : State) (rs : List Request) : State :=
  (serve grow st rs).2

/-- The routes registered in `main`, with the 64-bit `createUser64`. -/
def handle64 (grow : Nat → Nat) (st : State) : Request → Response × State
  | .getUsers => getUsers st
  | .getUserById idParam => getUserById st idParam
  | .createUser decoded => createUser64 grow st decoded
  | .updateUser idParam decoded => updateUser st idParam decoded
  | .deleteUser idParam => deleteUser grow st idParam

/-- Serves the requests one after another with `handle64`. -/
def serve64 (grow : Nat → Nat) : State → List Request → List Response × State
  | st, [] => ([], st)
  | st, r :: rs =>
    let a := handle64 grow st r
    let b := serve64 grow a.2 rs
    (a.1 :: b.1, b.2)

/-- The state after serving the requests with `handle64`. -/
def run64 (grow : Nat → Nat) (st : State) (rs : List Request) : State :=
  (serve64 grow st rs).2

/-- The ids of the records created by a run: the `id` of each 201 response. -/
def createdIds : List Response → List Int
  | [] => []
  | ⟨code, .user u⟩ :: rs => if code = StatusCreated then u.Id :: createdIds rs else createdIds rs
  | _ :: rs => createdIds rs

/-- The requests of `n` creates, one per candidate. -/
def creates (cs : List User) : List Request := cs.map (fun c => Request.createUser (some c))

/-- The integers `k, k+1, ..., k+n-1` in this order. -/
def consecutive (k : Int) (n : Nat) : List Int :=
  (List.range n).map (fun (j : Nat) => k + (j : Int))

/-! ## Concrete inputs -/

/-- A growth policy for the examples: the capacity doubles. -/
def growDouble : Nat → Nat := fun c => 2 * c

/-- A valid request body. -/
def alice : User := { Id := 0, Age := 25, Email := "a@x.com", Name := "A" }

/-- Another valid request body. -/
def bob : User := { Id := 0, Age := 30, Email := "b@x.com", Name := "B" }

/-- The store after `POST /users` with `alice`, then with `bob`. -/
def twoUsers : State :=
  run growDouble fresh [.createUser (some alice), .createUser (some bob)]

/-- A request body that fails the binding: `age` is 0. -/
def ageZero : User := { Id := 0, Age := 0, Email := "b@x.com", Name := "B" }

/-- The empty store whose counter is the largest `int`. -/
def atMaxInt64 : State :=
  { heap := fun _ _ => User.zero, nextPtr := 1,
    db := { currentId := MaxInt64, users := { ptr := 0, off := 0, len := 0, cap := 0 } } }

/-! ## Heap and slice lemmas -/

theorem storeList_apply (h : Heap) (p : Nat) (us : List User) :
    ∀ (i q j : Nat), Heap.storeList h p i us q j =
      if q = p ∧ i ≤ j ∧ j - i < us.length then (us[j - i]?).getD User.zero else h q j := by
  induction us generalizing h with
  | nil => intro i q j; simp [Heap.storeList]
  | cons u us ih =>
    intro i q j
    rw [Heap.storeList, ih]
    by_cases hq : q = p
    · by_cases h1 : i + 1 ≤ j
      · have e : j - i = (j - (i + 1)) + 1 := by omega
        by_cases h2 : j - (i + 1) < us.length
        · have h3 : i ≤ j ∧ j - i < (u :: us).length := by simp; omega
          simp [hq, h1, h2, h3, e]
        · have h3 : ¬ (j - i < us.length + 1) := by omega
          have h4 : j ≠ i := by omega
          simp [hq, h1, h2, h3, h4, Heap.store]
      · by_cases h5 : j = i
        · subst h5; simp [hq, Heap.store]
        · have h6 : ¬ i ≤ j := by omega
          simp [hq, h1, h5, h6, Heap.store]
    · simp [hq, Heap.store]

theorem load_length (h : Heap) (s : Slice) : (h.load s).length = s.len := by
  simp [Heap.load]

theorem load_getElem? (h : Heap) (s : Slice) (k : Nat) (hk : k < s.len) :
    (h.load s)[k]? = some (h s.ptr (s.off + k)) := by
  simp [Heap.load, List.getElem?_map, List.getElem?_range hk]

theorem load_eq_of_forall (h : Heap) (s : Slice) (l : List User) (hl : l.length = s.len)
    (he : ∀ k, k < s.len → l[k]? = some (h s.ptr (s.off + k))) : h.load s = l := by
  apply List.ext_getElem?
  intro k
  by_cases hk : k < s.len
  · rw [load_getElem? h s k hk, he k hk]
  · have h1 : (h.load s).length ≤ k := by rw [load_length]; omega
    have h2 : l.length ≤ k := by omega
    rw [List.getElem?_eq_none h1, List.getElem?_eq_none h2]

theorem load_append (grow : Nat → Nat) (h : Heap) (np : Nat) (s : Slice) (elems : List User) :
    (append grow h np s elems).1.load (append grow h np s elems).2.2 = h.load s ++ elems := by
  unfold append
  split
  · apply load_eq_of_forall
    · simp [load_length]
    · intro k hk
      simp only [storeList_apply]
      replace hk : k < s.len + elems.length := hk
      by_cases h1 : k < s.len
      · have : ¬ (s.off + s.len ≤ s.off + k) := by omega
        have h5 : k < (h.load s).length := by rw [load_length]; exact h1
        rw [List.getElem?_append_left h5, load_getElem? h s k h1]
        simp [this]
      · have e : s.off + k - (s.off + s.len) = k - s.len := by omega
        have h2 : k - s.len < elems.length := by omega
        have h3 : s.off + s.len ≤ s.off + k := by omega
        have h4 : (h.load s).length ≤ k := by rw [load_length]; omega
        rw [List.getElem?_append_right h4]
        simp [e, h2, h3, load_length, List.getElem?_eq_getElem h2]
  · apply load_eq_of_forall
    · simp [load_length]
    · intro k hk
      simp at hk
      have h2 : k < (h.load s ++ elems).length := by simp [load_length]; exact hk
      have h3 : k < (h.load s).length + elems.length := by simpa using h2
      simp only [storeList_apply]
      simp [h3, List.getElem?_eq_getElem h2]

theorem load_sliceTo (h : Heap) (s : Slice) (i : Nat) (hi : i ≤ s.len) :
    h.load (s.sliceTo i) = (h.load s).take i := by
  apply load_eq_of_forall
  · simp [Slice.sliceTo, load_length, hi]
  · intro k hk
    simp [Slice.sliceTo] at hk ⊢
    rw [List.getElem?_take_of_lt hk, load_getElem? h s k (by omega)]

theorem load_sliceFrom (h : Heap) (s : Slice) (i : Nat) :
    h.load (s.sliceFrom i) = (h.load s).drop i := by
  apply load_eq_of_forall
  · simp [Slice.sliceFrom, load_length]
  · intro k hk
    simp [Slice.sliceFrom] at hk ⊢
    rw [load_getElem? h s (i + k) (by omega)]
    simp [Nat.add_assoc]

theorem load_store (h : Heap) (s : Slice) (i : Nat) (u : User) :
    (h.store s.ptr (s.off + i) u).load s = (h.load s).set i u := by
  apply load_eq_of_forall
  · simp [load_length]
  · intro k hk
    by_cases e : k = i
    · subst e
      simp [Heap.store, List.getElem?_set, load_length, hk]
    · have e2 : i ≠ k := fun x => e x.symm
      simp [Heap.store, e, List.getElem?_set, e2, load_getElem? h s k hk]

/-! ## The scan loop -/

theorem scan_none_iff (id : Int) (us : List User) :
    ∀ n, scan id us n = none ↔ ∀ u ∈ us, u.Id ≠ id := by
  induction us with
  | nil => intro n; simp [scan]
  | cons v vs ih =>
    intro n
    by_cases hv : v.Id = id
    · simp [scan, hv]
    · simp [scan, hv, ih]

theorem scan_some (id : Int) (us : List User) :
    ∀ n i u, scan id us n = some (i, u) →
      n ≤ i ∧ us[i - n]? = some u ∧ u.Id = id ∧ (∀ v ∈ us.take (i - n), v.Id ≠ id) := by
  induction us with
  | nil => intro n i u h; simp [scan] at h
  | cons v vs ih =>
    intro n i u h
    by_cases hv : v.Id = id
    · simp [scan, hv] at h
      obtain ⟨rfl, rfl⟩ := h
      simp [hv]
    · simp [scan, hv] at h
      obtain ⟨h1, h2, h3, h4⟩ := ih (n + 1) i u h
      have e : i - n = (i - (n + 1)) + 1 := by omega
      refine ⟨by omega, ?_, h3, ?_⟩
      · rw [e]; simpa using h2
      · rw [e]
        intro w hw
        simp at hw
        rcases hw with rfl | hw
        · exact hv
        · exact h4 w hw

theorem scan_isSome_of_mem (id : Int) (us : List User) (n : Nat) (u : User) (hu : u ∈ us)
    (hid : u.Id = id) : ∃ i v, scan id us n = some (i, v) := by
  cases h : scan id us n with
  | none => exact absurd hid ((scan_none_iff id us n).1 h u hu)
  | some p => exact ⟨p.1, p.2, rfl⟩

/-! ## The handlers on the record sequence -/

theorem records_eq (st : State) : records st = st.heap.load st.db.users := rfl

theorem createUser_valid (grow : Nat → Nat) (st : State) (u : User) (hu : required u = true) :
    (createUser grow st (some u)).1 = ⟨StatusCreated, .user { u with Id := st.db.currentId }⟩ ∧
    records (createUser grow st (some u)).2 = records st ++ [{ u with Id := st.db.currentId }] ∧
    (createUser grow st (some u)).2.db.currentId = st.db.currentId + 1 := by
  simp [createUser, ShouldBindJSON, hu, records, getUsersSection, load_append]

theorem createUser_invalid (grow : Nat → Nat) (st : State) (d : Option User)
    (hd : ShouldBindJSON d = none) :
    (createUser grow st d).1.code = StatusBadRequest ∧ (createUser grow st d).2 = st := by
  simp [createUser, hd]

theorem getUserById_snd (st : State) (idParam : Option Int) : (getUserById st idParam).2 = st := by
  unfold getUserById
  cases idParam with
  | none => rfl
  | some id =>
    simp only
    cases scan id (st.heap.load st.db.users) 0 with
    | none => rfl
    | some p => rfl

theorem getUserById_absent (st : State) (id : Int) (h : ∀ u ∈ records st, u.Id ≠ id) :
    getUserById st (some id) = (⟨StatusNotFound, .error "user not found"⟩, st) := by
  have h1 := (scan_none_iff id (records st) 0).2 h
  rw [records_eq] at h1
  simp [getUserById, h1]

theorem getUserById_found (st : State) (id : Int) (i : Nat) (v : User)
    (h : scan id (records st) 0 = some (i, v)) :
    getUserById st (some id) = (⟨StatusOK, .user v⟩, st) := by
  rw [records_eq] at h
  simp [getUserById, h]

theorem updateUser_absent (st : State) (id : Int) (d : Option User)
    (h : ∀ u ∈ records st, u.Id ≠ id) (R : User) (hd : ShouldBindJSON d = some R) :
    updateUser st (some id) d = (⟨StatusNotFound, .error "user not found"⟩, st) := by
  have h1 := (scan_none_iff id (records st) 0).2 h
  rw [records_eq] at h1
  simp [updateUser, h1, hd]

theorem updateUser_found (st : State) (id : Int) (d : Option User) (R : User)
    (hd : ShouldBindJSON d = some R) (i : Nat) (v : User)
    (h : scan id (records st) 0 = some (i, v)) :
    (updateUser st (some id) d).1 = ⟨StatusOK, .user { R with Id := id }⟩ ∧
    records (updateUser st (some id) d).2 = (records st).set i { R with Id := id } ∧
    (updateUser st (some id) d).2.db = st.db := by
  rw [records_eq] at h
  simp [updateUser, h, hd, records, getUsersSection, load_store]

theorem deleteUser_absent (grow : Nat → Nat) (st : State) (id : Int)
    (h : ∀ u ∈ records st, u.Id ≠ id) :
    deleteUser grow st (some id) = (⟨StatusNotFound, .error "user not found"⟩, st) := by
  have h1 := (scan_none_iff id (records st) 0).2 h
  rw [records_eq] at h1
  simp [deleteUser, h1]

theorem deleteUser_found (grow : Nat → Nat) (st : State) (id : Int) (i : Nat) (v : User)
    (h : scan id (records st) 0 = some (i, v)) :
    (deleteUser grow st (some id)).1 = ⟨StatusNoContent, .message "user deleted successfully"⟩ ∧
    records (deleteUser grow st (some id)).2 = (records st).eraseIdx i ∧
    (deleteUser grow st (some id)).2.db.currentId = st.db.currentId := by
  have hs := scan_some id (records st) 0 i v h
  have hi : i < st.db.users.len := by
    have := hs.2.1
    have h2 : i < (records st).length := by
      by_contra hc
      rw [List.getElem?_eq_none (by simpa using hc)] at this
      exact absurd this (by simp)
    rwa [records_eq, load_length] at h2
  rw [records_eq] at h
  simp [deleteUser, h, records, getUsersSection, load_append, load_sliceFrom,
    load_sliceTo _ _ i (Nat.le_of_lt hi), List.eraseIdx_eq_take_drop_succ]

theorem ShouldBindJSON_eq_some (d : Option User) (u : User) (h : ShouldBindJSON d = some u) :
    d = some u ∧ required u = true := by
  unfold ShouldBindJSON at h
  cases d with
  | none => simp at h
  | some v =>
    by_cases hv : required v = true
    · simp [hv] at h; subst h; exact ⟨rfl, hv⟩
    · simp [hv] at h

theorem ShouldBindJSON_some (u : User) (h : required u = true) : ShouldBindJSON (some u) = some u := by
  simp [ShouldBindJSON, h]

/-- What a request does to the record sequence and the counter. -/
theorem handle_cases (grow : Nat → Nat) (st : State) (r : Request) :
    (handle grow st r).2 = st ∨
    (∃ u, r = .createUser (some u) ∧ required u = true ∧
      (handle grow st r).1 = ⟨StatusCreated, .user { u with Id := st.db.currentId }⟩ ∧
      records (handle grow st r).2 = records st ++ [{ u with Id := st.db.currentId }] ∧
      (handle grow st r).2.db.currentId = st.db.currentId + 1) ∨
    (∃ id d R i v, r = .updateUser (some id) d ∧ ShouldBindJSON d = some R ∧
      scan id (records st) 0 = some (i, v) ∧
      records (handle grow st r).2 = (records st).set i { R with Id := id } ∧
      (handle grow st r).2.db.currentId = st.db.currentId) ∨
    (∃ id i v, r = .deleteUser (some id) ∧ scan id (records st) 0 = some (i, v) ∧
      records (handle grow st r).2 = (records st).eraseIdx i ∧
      (handle grow st r).2.db.currentId = st.db.currentId) := by
  cases r with
  | getUsers => left; rfl
  | getUserById idParam => left; exact getUserById_snd st idParam
  | createUser d =>
    cases hd : ShouldBindJSON d with
    | none => left; exact (createUser_invalid grow st d hd).2
    | some u =>
      obtain ⟨rfl, hu⟩ := ShouldBindJSON_eq_some d u hd
      right; left
      exact ⟨u, rfl, hu, createUser_valid grow st u hu⟩
  | updateUser idParam d =>
    cases idParam with
    | none => left; rfl
    | some id =>
      cases hd : ShouldBindJSON d with
      | none => left; simp [handle, updateUser, hd]
      | some R =>
        cases hs : scan id (records st) 0 with
        | none =>
          left
          have := updateUser_absent st id d ((scan_none_iff id _ 0).1 hs) R hd
          simp [handle, this]
        | some p =>
          right; right; left
          have := updateUser_found st id d R hd p.1 p.2 hs
          exact ⟨id, d, R, p.1, p.2, rfl, hd, hs, this.2.1, by simp [handle, this.2.2]⟩
  | deleteUser idParam =>
    cases idParam with
    | none => left; rfl
    | some id =>
      cases hs : scan id (records st) 0 with
      | none =>
        left
        have := deleteUser_absent grow st id ((scan_none_iff id _ 0).1 hs)
        simp [handle, this]
      | some p =>
        right; right; right
        have := deleteUser_found grow st id p.1 p.2 hs
        exact ⟨id, p.1, p.2, rfl, hs, this.2.1, this.2.2⟩

theorem scan_set (id : Int) (r : User) (hr : r.Id = id) (l : List User) :
    ∀ n i v, scan id l n = some (i, v) → scan id (l.set (i - n) r) n = some (i, r) := by
  induction l with
  | nil => intro n i v h; simp [scan] at h
  | cons a l ih =>
    intro n i v h
    by_cases ha : a.Id = id
    · simp [scan, ha] at h
      obtain ⟨rfl, rfl⟩ := h
      simp [scan, hr]
    · simp [scan, ha] at h
      have hn := (scan_some id l (n + 1) i v h).1
      have e : i - n = (i - (n + 1)) + 1 := by omega
      rw [e]
      simp [scan, ha, ih (n + 1) i v h]

theorem getElem?_lt_of_some (l : List User) (i : Nat) (v : User) (h : l[i]? = some v) :
    i < l.length := (List.getElem?_eq_some.1 h).1

theorem createdIds_handle (grow : Nat → Nat) (st : State) (r : Request) (rest : List Response) :
    createdIds ((handle grow st r).1 :: rest) =
      match r with
      | .createUser d =>
        if (ShouldBindJSON d).isSome then st.db.currentId :: createdIds rest else createdIds rest
      | _ => createdIds rest := by
  cases r with
  | getUsers => simp [handle, getUsers, createdIds]
  | getUserById idParam =>
    cases idParam with
    | none => simp [handle, getUserById, createdIds]
    | some id =>
      cases hs : scan id (st.heap.load st.db.users) 0 with
      | none => simp [handle, getUserById, hs, createdIds]
      | some p => simp [handle, getUserById, hs, createdIds, StatusOK, StatusCreated]
  | createUser d =>
    cases hd : ShouldBindJSON d with
    | none => simp [handle, createUser, hd, createdIds]
    | some u => simp [handle, createUser, hd, createdIds]
  | updateUser idParam d =>
    cases idParam with
    | none => simp [handle, updateUser, createdIds]
    | some id =>
      cases hd : ShouldBindJSON d with
      | none => simp [handle, updateUser, hd, createdIds]
      | some u =>
        cases hs : scan id (st.heap.load st.db.users) 0 with
        | none => simp [handle, updateUser, hd, hs, createdIds]
        | some p => simp [handle, updateUser, hd, hs, createdIds, StatusOK, StatusCreated]
  | deleteUser idParam =>
    cases idParam with
    | none => simp [handle, deleteUser, createdIds]
    | some id =>
      cases hs : scan id (st.heap.load st.db.users) 0 with
      | none => simp [handle, deleteUser, hs, createdIds]
      | some p => simp [handle, deleteUser, hs, createdIds]

theorem currentId_handle_le (grow : Nat → Nat) (st : State) (r : Request) :
    st.db.currentId ≤ (handle grow st r).2.db.currentId := by
  rcases handle_cases grow st r with h0 | ⟨u, -, -, -, -, hc⟩ | ⟨id, d, R, i, v, -, -, -, -, hc⟩ |
    ⟨id, i, v, -, -, -, hc⟩
  · rw [h0]
  · omega
  · omega
  · omega

theorem consecutive_succ (k : Int) (n : Nat) :
    consecutive k (n + 1) = k :: consecutive (k + 1) n := by
  unfold consecutive
  rw [List.range_succ_eq_map]
  simp [List.map_map, Function.comp_def]
  intro a _
  omega

theorem consecutive_nodup (k : Int) (n : Nat) : (consecutive k n).Nodup := by
  refine (List.nodup_range n).map ?_
  intro a b hab
  simp at hab
  exact hab

theorem mem_consecutive (k : Int) (n : Nat) (x : Int) :
    x ∈ consecutive k n ↔ k ≤ x ∧ x < k + n := by
  unfold consecutive
  rw [List.mem_map]
  constructor
  · rintro ⟨j, hj, rfl⟩
    rw [List.mem_range] at hj
    omega
  · rintro ⟨hx1, hx2⟩
    refine ⟨(x - k).toNat, ?_, ?_⟩
    · rw [List.mem_range]; omega
    · omega

theorem twoCreates_state (grow : Nat → Nat) :
    ∃ p cap, 2 ≤ cap ∧
      (run grow fresh [.createUser (some alice), .createUser (some bob)]).db.users = ⟨p, 0, 2, cap⟩ ∧
      (run grow fresh [.createUser (some alice), .createUser (some bob)]).heap p 0 = { alice with Id := 1 } ∧
      (run grow fresh [.createUser (some alice), .createUser (some bob)]).heap p 1 = { bob with Id := 2 } := by
  by_cases h : 2 ≤ max (grow 0) 1
  · refine ⟨1, max (grow 0) 1, h, ?_, ?_, ?_⟩ <;>
    simp [run, serve, handle, createUser, ShouldBindJSON, required, alice, bob, append, fresh,
      Heap.load, Heap.storeList, Heap.store, h]
  · refine ⟨2, max (grow (max (grow 0) 1)) 2, by omega, ?_, ?_, ?_⟩ <;>
    simp [run, serve, handle, createUser, ShouldBindJSON, required, alice, bob, append, fresh,
      Heap.load, Heap.storeList, Heap.store, h, List.range_succ]

/-! ## The 64-bit counter -/

theorem wrapInt64_range (x : Int) : MinInt64 ≤ wrapInt64 x ∧ wrapInt64 x ≤ MaxInt64 := by
  unfold wrapInt64 MinInt64 MaxInt64
  omega

theorem wrapInt64_eq_self (x : Int) (h1 : MinInt64 ≤ x) (h2 : x ≤ MaxInt64) :
    wrapInt64 x = x := by
  unfold wrapInt64
  unfold MinInt64 at h1
  unfold MaxInt64 at h2
  omega

theorem createUser64_fst (grow : Nat → Nat) (st : State) (d : Option User) :
    (createUser64 grow st d).1 = (createUser grow st d).1 := by
  cases hd : ShouldBindJSON d with
  | none => simp [createUser64, createUser, hd]
  | some u => simp [createUser64, createUser, hd]

theorem createUser64_valid (grow : Nat → Nat) (st : State) (u : User) (hu : required u = true) :
    (createUser64 grow st (some u)).1 =
      ⟨StatusCreated, .user { u with Id := st.db.currentId }⟩ ∧
    records (createUser64 grow st (some u)).2 = records st ++ [{ u with Id := st.db.currentId }] ∧
    (createUser64 grow st (some u)).2.db.currentId = wrapInt64 (st.db.currentId + 1) := by
  simp [createUser64, ShouldBindJSON, hu, records, getUsersSection, load_append]

theorem createUser64_eq (grow : Nat → Nat) (st : State) (d : Option User)
    (h1 : MinInt64 ≤ st.db.currentId) (h2 : st.db.currentId < MaxInt64) :
    createUser64 grow st d = createUser grow st d := by
  have e : wrapInt64 (st.db.currentId + 1) = st.db.currentId + 1 :=
    wrapInt64_eq_self _ (by omega) (by omega)
  cases hd : ShouldBindJSON d with
  | none => simp [createUser64, createUser, hd]
  | some u => simp [createUser64, createUser, hd, e]

theorem handle64_fst (grow : Nat → Nat) (st : State) (r : Request) :
    (handle64 grow st r).1 = (handle grow st r).1 := by
  cases r with
  | createUser d => exact createUser64_fst grow st d
  | getUsers => rfl
  | getUserById _ => rfl
  | updateUser _ _ => rfl
  | deleteUser _ => rfl

theorem handle64_eq (grow : Nat → Nat) (st : State) (r : Request)
    (h1 : MinInt64 ≤ st.db.currentId) (h2 : st.db.currentId < MaxInt64) :
    handle64 grow st r = handle grow st r := by
  cases r with
  | createUser d => exact createUser64_eq grow st d h1 h2
  | getUsers => rfl
  | getUserById _ => rfl
  | updateUser _ _ => rfl
  | deleteUser _ => rfl

theorem currentId_handle_le_succ (grow : Nat → Nat) (st : State) (r : Request) :
    (handle grow st r).2.db.currentId ≤ st.db.currentId + 1 := by
  rcases handle_cases grow st r with h0 | ⟨u, -, -, -, -, hc⟩ | ⟨id, d, R, i, v, -, -, -, -, hc⟩ |
    ⟨id, i, v, -, -, -, hc⟩
  · rw [h0]; omega
  · omega
  · omega
  · omega

theorem serve64_cons (grow : Nat → Nat) (st : State) (r : Request) (rs : List Request) :
    serve64 grow st (r :: rs) =
      ((handle64 grow st r).1 :: (serve64 grow (handle64 grow st r).2 rs).1,
        (serve64 grow (handle64 grow st r).2 rs).2) := rfl

theorem serve_cons (grow : Nat → Nat) (st : State) (r : Request) (rs : List Request) :
    serve grow st (r :: rs) =
      ((handle grow st r).1 :: (serve grow (handle grow st r).2 rs).1,
        (serve grow (handle grow st r).2 rs).2) := rfl

/-- The 64-bit handlers and the handlers on the integers serve a request
sequence alike as long as the counter cannot reach `MaxInt64` on the way. -/
theorem serve64_eq (grow : Nat → Nat) (rs : List Request) :
    ∀ st, MinInt64 ≤ st.db.currentId → st.db.currentId + rs.length ≤ MaxInt64 →
      serve64 grow st rs = serve grow st rs := by
  induction rs with
  | nil => intro st _ _; rfl
  | cons r rs ih =>
    intro st h1 h2
    simp only [List.length_cons, Nat.cast_add, Nat.cast_one] at h2
    have e := handle64_eq grow st r h1 (by omega)
    have hlo := currentId_handle_le grow st r
    have hhi := currentId_handle_le_succ grow st r
    rw [serve64_cons, serve_cons, e, ih (handle grow st r).2 (by omega) (by omega)]

/-- On every run from the fresh store of fewer than 2^63 - 1 requests the
64-bit handlers give the responses and the state of the handlers on the
integers. -/
theorem run64_fresh_eq (grow : Nat → Nat) (rs : List Request)
    (h : (rs.length : Int) < MaxInt64) :
    serve64 grow fresh rs = serve grow fresh rs ∧ run64 grow fresh rs = run grow fresh rs := by
  have hc : fresh.db.currentId = 1 := rfl
  have e := serve64_eq grow rs fresh (by rw [hc]; unfold MinInt64; omega) (by rw [hc]; omega)
  exact ⟨e, by unfold run64 run; rw [e]⟩

theorem serve64_creates (grow : Nat → Nat) (cs : List User) (hv : ∀ c ∈ cs, required c = true) :
    ∀ st, MinInt64 ≤ st.db.currentId → st.db.currentId + cs.length ≤ MaxInt64 + 1 →
      createdIds (serve64 grow st (creates cs)).1 = consecutive st.db.currentId cs.length ∧
      (records (run64 grow st (creates cs))).map User.Id =
        (records st).map User.Id ++ consecutive st.db.currentId cs.length := by
  induction cs with
  | nil => intro st _ _; simp [creates, serve64, run64, createdIds, consecutive]
  | cons c cs ih =>
    intro st hlo hb
    simp only [List.length_cons, Nat.cast_add, Nat.cast_one] at hb
    have hc : required c = true := hv c (by simp)
    obtain ⟨-, hr, hid⟩ := createUser64_valid grow st c hc
    have hrange := wrapInt64_range (st.db.currentId + 1)
    have hnext : consecutive (wrapInt64 (st.db.currentId + 1)) cs.length =
          consecutive (st.db.currentId + 1) cs.length ∧
        wrapInt64 (st.db.currentId + 1) + cs.length ≤ MaxInt64 + 1 := by
      cases cs with
      | nil => exact ⟨rfl, by simp only [List.length_nil, Nat.cast_zero]; omega⟩
      | cons c2 cs2 =>
        simp only [List.length_cons, Nat.cast_add, Nat.cast_one] at hb ⊢
        have hnn : (0 : Int) ≤ (cs2.length : Int) := Int.ofNat_nonneg _
        rw [wrapInt64_eq_self _ (by omega) (by omega)]
        exact ⟨rfl, by omega⟩
    obtain ⟨h1, h2⟩ := ih (fun x hx => hv x (by simp [hx])) (createUser64 grow st (some c)).2
      (by rw [hid]; exact hrange.1) (by rw [hid]; exact hnext.2)
    have e : creates (c :: cs) = Request.createUser (some c) :: creates cs := rfl
    have hh : handle64 grow st (Request.createUser (some c)) = createUser64 grow st (some c) := rfl
    constructor
    · rw [e, serve64_cons]
      simp only
      rw [handle64_fst, createdIds_handle]
      simp only [ShouldBindJSON_some c hc, Option.isSome_some, if_true, hh, List.length_cons]
      rw [h1, hid, hnext.1, consecutive_succ]
    · have hrun : run64 grow st (creates (c :: cs)) =
          run64 grow (createUser64 grow st (some c)).2 (creates cs) := rfl
      rw [hrun, h2, hr, hid, hnext.1, List.length_cons, consecutive_succ]
      simp

/-! ## The claims -/

/-- C6, as stated, fails for a replacement that does not pass the binding: in
the store holding `alice` (id 1) and `bob` (id 2), no record has id 7, and
`PUT /users/7` with a body whose `age` is 0 answers 400, not 404. -/
theorem C6_update_unbound_body_not_404 :
    (∀ u ∈ records twoUsers, u.Id ≠ 7) ∧
    (updateUser twoUsers (some 7) (some ageZero)).1 =
      ⟨StatusBadRequest, .error "binding error"⟩ ∧
    (updateUser twoUsers (some 7) (some ageZero)).1.code ≠ StatusNotFound := by
  decide

/-- C6, amended. Not-found is non-mutating: in every state and for every
integer id that no record of the sequence has, `PUT /users/id` with a body R
that passes the binding (`age` not 0, `email` and `name` not empty),
`DELETE /users/id` and `GET /users/id` answer 404 and return the very state
they were given (so the list output and `currentId` are the same before and
after); a PUT whose body does not pass the binding answers 400, and a PUT
leaves the state as it was whatever its body. -/
theorem C6_not_found_non_mutating (grow : Nat → Nat) (st : State) (id : Int) (R : User)
    (d : Option User) (hR : required R = true) (habs : ∀ u ∈ records st, u.Id ≠ id) :
    updateUser st (some id) (some R) = (⟨StatusNotFound, .error "user not found"⟩, st) ∧
    deleteUser grow st (some id) = (⟨StatusNotFound, .error "user not found"⟩, st) ∧
    getUserById st (some id) = (⟨StatusNotFound, .error "user not found"⟩, st) ∧
    (ShouldBindJSON d = none → (updateUser st (some id) d).1.code = StatusBadRequest) ∧
    (updateUser st (some id) d).2 = st ∧
    (getUsers (updateUser st (some id) (some R)).2).1 = (getUsers st).1 ∧
    (getUsers (deleteUser grow st (some id)).2).1 = (getUsers st).1 ∧
    (getUsers (getUserById st (some id)).2).1 = (getUsers st).1 := by
  have hu := updateUser_absent st id (some R) habs R (ShouldBindJSON_some R hR)
  have hd := deleteUser_absent grow st id habs
  have hg := getUserById_absent st id habs
  refine ⟨hu, hd, hg, ?_, ?_, by rw [hu], by rw [hd], by rw [hg]⟩
  · intro hb
    simp [updateUser, hb]
  · cases hb : ShouldBindJSON d with
    | none => simp [updateUser, hb]
    | some R2 => rw [updateUser_absent st id d habs R2 hb]

/-- Witness of C6: id 7 on the store holding `alice` and `bob`. -/
theorem C6_not_found_non_mutating_witness :
    required bob = true ∧ (∀ u ∈ records twoUsers, u.Id ≠ 7) ∧
    updateUser twoUsers (some 7) (some bob) =
      (⟨StatusNotFound, .error "user not found"⟩, twoUsers) ∧
    deleteUser growDouble twoUsers (some 7) =
      (⟨StatusNotFound, .error "user not found"⟩, twoUsers) :=
  have h := C6_not_found_non_mutating growDouble twoUsers 7 bob none (by decide) (by decide)
  ⟨by decide, by decide, h.1, h.2.1⟩

/-- C9. NotFound exactly when the id is absent: in every state and for every
integer id, each of `GET /users/id`, `PUT /users/id` with a valid body and
`DELETE /users/id` answers 404 if and only if no record of the sequence has
that id; when some record has it, GET answers 200 with a record of the
sequence that has this id, PUT answers 200 with the replacement carrying this
id and DELETE answers 204. -/
theorem C9_not_found_iff_absent (grow : Nat → Nat) (st : State) (id : Int) (R : User)
    (hR : required R = true) :
    ((getUserById st (some id)).1.code = StatusNotFound ↔ ∀ u ∈ records st, u.Id ≠ id) ∧
    ((updateUser st (some id) (some R)).1.code = StatusNotFound ↔
      ∀ u ∈ records st, u.Id ≠ id) ∧
    ((deleteUser grow st (some id)).1.code = StatusNotFound ↔ ∀ u ∈ records st, u.Id ≠ id) ∧
    ((∃ u ∈ records st, u.Id = id) →
      (∃ v ∈ records st, v.Id = id ∧ (getUserById st (some id)).1 = ⟨StatusOK, .user v⟩) ∧
      (updateUser st (some id) (some R)).1 = ⟨StatusOK, .user { R with Id := id }⟩ ∧
      (deleteUser grow st (some id)).1.code = StatusNoContent) := by
  have hb := ShouldBindJSON_some R hR
  cases hs : scan id (records st) 0 with
  | none =>
    have habs := (scan_none_iff id _ 0).1 hs
    rw [getUserById_absent st id habs, updateUser_absent st id _ habs R hb,
      deleteUser_absent grow st id habs]
    refine ⟨iff_of_true rfl habs, iff_of_true rfl habs, iff_of_true rfl habs, ?_⟩
    rintro ⟨u, hu, hid⟩
    exact absurd hid (habs u hu)
  | some p =>
    obtain ⟨i, v⟩ := p
    have hv := scan_some id (records st) 0 i v hs
    have hmem : v ∈ records st := List.mem_iff_getElem?.2 ⟨_, hv.2.1⟩
    have hne : ¬ ∀ u ∈ records st, u.Id ≠ id := fun h => h v hmem hv.2.2.1
    have hg := getUserById_found st id i v hs
    have hu := updateUser_found st id (some R) R hb i v hs
    have hd := deleteUser_found grow st id i v hs
    rw [hg, hu.1, hd.1]
    refine ⟨?_, ?_, ?_, ?_⟩
    · simp only [hne, iff_false]; decide
    · simp only [hne, iff_false]; decide
    · simp only [hne, iff_false]; decide
    · intro _
      exact ⟨⟨v, hmem, hv.2.2.1, rfl⟩, rfl, rfl⟩

/-- Witness of C9: id 1 on the store holding `alice` and `bob`. -/
theorem C9_not_found_iff_absent_witness :
    required bob = true ∧
    ((getUserById twoUsers (some 1)).1.code = StatusNotFound ↔
      ∀ u ∈ records twoUsers, u.Id ≠ 1) ∧
    (deleteUser growDouble twoUsers (some 1)).1.code = StatusNoContent :=
  have h := C9_not_found_iff_absent growDouble twoUsers 1 bob (by decide)
  ⟨by decide, h.1, (h.2.2.2 ⟨{ alice with Id := 1 }, by decide, rfl⟩).2.2⟩

/-- C4, as stated, fails for a replacement that does not pass the binding: in
the store holding `alice` (id 1) and `bob` (id 2), `PUT /users/1` with a body
whose `age` is 0 answers 400, not 200 with the replacement, and the records are
left as they were. -/
theorem C4_update_rejects_unbound_body :
    (∃ u ∈ records twoUsers, u.Id = 1) ∧
    (updateUser twoUsers (some 1) (some ageZero)).1 =
      ⟨StatusBadRequest, .error "binding error"⟩ ∧
    (updateUser twoUsers (some 1) (some ageZero)).1 ≠
      ⟨StatusOK, .user { ageZero with Id := 1 }⟩ ∧
    records (updateUser twoUsers (some 1) (some ageZero)).2 = records twoUsers := by
  decide

/-- C4, amended. Update is a full replacement in place: in every state reached
from the fresh store, for every id X that some record has and every
replacement R that passes the binding (`age` not 0, `email` and `name` not
empty), `PUT /users/X` answers 200 with R carrying id X (whatever id R carried);
afterwards `GET /users/X` answers 200 with that same record, the record sits
at the position where a record of id X sat before, every other position reads
as before, the sequence has the same length and `currentId` is unchanged. -/
theorem C4_update_replaces_in_place (grow : Nat → Nat) (rs : List Request) (X : Int) (R : User)
    (hR : required R = true) (hX : ∃ u ∈ records (run grow fresh rs), u.Id = X) :
    (updateUser (run grow fresh rs) (some X) (some R)).1 =
      ⟨StatusOK, .user { R with Id := X }⟩ ∧
    getUserById (updateUser (run grow fresh rs) (some X) (some R)).2 (some X) =
      (⟨StatusOK, .user { R with Id := X }⟩,
        (updateUser (run grow fresh rs) (some X) (some R)).2) ∧
    (∃ i v, (records (run grow fresh rs))[i]? = some v ∧ v.Id = X ∧
      records (updateUser (run grow fresh rs) (some X) (some R)).2 =
        (records (run grow fresh rs)).set i { R with Id := X } ∧
      (records (updateUser (run grow fresh rs) (some X) (some R)).2)[i]? =
        some { R with Id := X } ∧
      ∀ j, j ≠ i → (records (updateUser (run grow fresh rs) (some X) (some R)).2)[j]? =
        (records (run grow fresh rs))[j]?) ∧
    (records (updateUser (run grow fresh rs) (some X) (some R)).2).length =
      (records (run grow fresh rs)).length ∧
    (updateUser (run grow fresh rs) (some X) (some R)).2.db.currentId =
      (run grow fresh rs).db.currentId := by
  obtain ⟨u, hu, hid⟩ := hX
  obtain ⟨i, v, hs⟩ := scan_isSome_of_mem X _ 0 u hu hid
  have hv := scan_some X _ 0 i v hs
  obtain ⟨h1, h2, h3⟩ := updateUser_found (run grow fresh rs) X (some R) R
    (ShouldBindJSON_some R hR) i v hs
  have hi : i < (records (run grow fresh rs)).length := getElem?_lt_of_some _ _ _ hv.2.1
  refine ⟨h1, ?_, ⟨i, v, hv.2.1, hv.2.2.1, h2, ?_, ?_⟩, ?_, by rw [h3]⟩
  · apply getUserById_found _ _ i
    rw [h2]
    exact scan_set X _ rfl _ 0 i v hs
  · rw [h2]; exact List.getElem?_set_self hi
  · intro j hj
    rw [h2]
    exact List.getElem?_set_ne (fun e => hj e.symm)
  · rw [h2, List.length_set]

/-- Witness of C4: replacing record 1 of the store holding `alice` and `bob`. -/
theorem C4_update_replaces_in_place_witness :
    required bob = true ∧ (∃ u ∈ records twoUsers, u.Id = 1) ∧
    (updateUser twoUsers (some 1) (some bob)).1 = ⟨StatusOK, .user { bob with Id := 1 }⟩ :=
  ⟨by decide, ⟨{ alice with Id := 1 }, by decide, rfl⟩,
    (C4_update_replaces_in_place growDouble
      [.createUser (some alice), .createUser (some bob)] 1 bob (by decide)
      ⟨{ alice with Id := 1 }, by decide, rfl⟩).1⟩

/-- C2, as stated, fails on the 64-bit counter: in the empty store whose
counter is `MaxInt64`, two creates return the ids `MaxInt64` and `MinInt64`,
which are not k and k+1 and not the integers of the range from k to k+1. -/
theorem C2_ids_wrap_at_MaxInt64 :
    createdIds (serve64 growDouble atMaxInt64 (creates [alice, bob])).1 = [MaxInt64, MinInt64] ∧
    createdIds (serve64 growDouble atMaxInt64 (creates [alice, bob])).1 ≠
      consecutive atMaxInt64.db.currentId 2 ∧
    ¬ (∀ x : Int, x ∈ createdIds (serve64 growDouble atMaxInt64 (creates [alice, bob])).1 ↔
      atMaxInt64.db.currentId ≤ x ∧ x < atMaxInt64.db.currentId + 2) := by
  have h : createdIds (serve64 growDouble atMaxInt64 (creates [alice, bob])).1 =
      [MaxInt64, MinInt64] := by decide
  refine ⟨h, ?_, ?_⟩
  · rw [h]; decide
  · rw [h]
    intro hall
    have := (hall MinInt64).1 (by simp)
    exact absurd this.1 (by decide)

/-- C2, amended. For every state whose counter k is an `int`, and every list
of N valid candidates with k + N - 1 at most `MaxInt64` (the list is the order
in which the critical sections run, so every order is covered), serving the N
creates one after another with the 64-bit handlers returns the ids
k, k+1, ..., k+N-1: no duplicates, and an integer is among them exactly when
it lies in that range; the record sequence grows by exactly N records.  From
the fresh store, 50 creates leave 50 records with pairwise distinct ids. -/
theorem C2_creates_assign_consecutive_ids (grow : Nat → Nat) (st : State) (cs : List User)
    (hv : ∀ c ∈ cs, required c = true) (hlo : MinInt64 ≤ st.db.currentId)
    (hhi : st.db.currentId + cs.length ≤ MaxInt64 + 1) :
    createdIds (serve64 grow st (creates cs)).1 = consecutive st.db.currentId cs.length ∧
    (createdIds (serve64 grow st (creates cs)).1).Nodup ∧
    (∀ x : Int, x ∈ createdIds (serve64 grow st (creates cs)).1 ↔
      st.db.currentId ≤ x ∧ x < st.db.currentId + cs.length) ∧
    (records (run64 grow st (creates cs))).length = (records st).length + cs.length ∧
    (cs.length = 50 →
      (records (run64 grow fresh (creates cs))).length = 50 ∧
      ((records (run64 grow fresh (creates cs))).map User.Id).Nodup) := by
  obtain ⟨h1, h2⟩ := serve64_creates grow cs hv st hlo hhi
  refine ⟨h1, by rw [h1]; exact consecutive_nodup _ _, ?_, ?_, ?_⟩
  · intro x
    rw [h1]
    exact mem_consecutive _ _ x
  · have := congrArg List.length h2
    simpa [consecutive] using this
  · intro h50
    have hc : fresh.db.currentId = 1 := rfl
    obtain ⟨-, h3⟩ := serve64_creates grow cs hv fresh (by rw [hc]; decide)
      (by rw [hc, h50]; decide)
    have hf : records fresh = [] := rfl
    rw [hf] at h3
    simp only [List.map_nil, List.nil_append] at h3
    constructor
    · have := congrArg List.length h3
      simpa [h50, consecutive] using this
    · rw [h3]
      exact consecutive_nodup _ _

/-- Witness of C2: the creates of `alice` and `bob` on the fresh store. -/
theorem C2_creates_assign_consecutive_ids_witness :
    (∀ c ∈ [alice, bob], required c = true) ∧ MinInt64 ≤ fresh.db.currentId ∧
    fresh.db.currentId + ([alice, bob].length : Int) ≤ MaxInt64 + 1 ∧
    createdIds (serve64 growDouble fresh (creates [alice, bob])).1 = [1, 2] :=
  ⟨by decide, by decide, by decide,
    (C2_creates_assign_consecutive_ids growDouble fresh [alice, bob] (by decide) (by decide)
      (by decide)).1⟩

/-- C7. `getUsers` hands out the slice header of `db.users`, not a copy of the
elements.  Whatever the growth policy of `append`: the value taken in its
critical section on the store holding `alice` (id 1) and `bob` (id 2) reads as
those two records; once record 1 is deleted it reads as `bob`, `bob`, and once
record 1 is updated instead it reads as the replacement followed by `bob`. -/
theorem C7_snapshot_aliases_store (grow : Nat → Nat) :
    (run grow fresh [.createUser (some alice), .createUser (some bob)]).heap.load
        (getUsersSection (run grow fresh [.createUser (some alice), .createUser (some bob)])) =
      [{ alice with Id := 1 }, { bob with Id := 2 }] ∧
    (deleteUser grow (run grow fresh [.createUser (some alice), .createUser (some bob)])
        (some 1)).2.heap.load
        (getUsersSection (run grow fresh [.createUser (some alice), .createUser (some bob)])) =
      [{ bob with Id := 2 }, { bob with Id := 2 }] ∧
    (updateUser (run grow fresh [.createUser (some alice), .createUser (some bob)])
        (some 1) (some bob)).2.heap.load
        (getUsersSection (run grow fresh [.createUser (some alice), .createUser (some bob)])) =
      [{ bob with Id := 1 }, { bob with Id := 2 }] := by
  obtain ⟨p, cap, hcap, hu, h0, h1⟩ := twoCreates_state grow
  generalize run grow fresh [.createUser (some alice), .createUser (some bob)] = st at hu h0 h1
  have hc1 : 1 ≤ cap := by omega
  have hl : st.heap.load st.db.users = [{ alice with Id := 1 }, { bob with Id := 2 }] := by
    simp [Heap.load, hu, h0, h1, List.range_succ]
  refine ⟨by simpa [getUsersSection] using hl, ?_, ?_⟩
  · simp [deleteUser, hl, scan, alice, getUsersSection, append, Slice.sliceTo, Slice.sliceFrom,
      Heap.load, hu, h0, h1, hc1, Heap.storeList, Heap.store, List.range_succ]
  · simp [updateUser, hl, scan, alice, bob, ShouldBindJSON, required, getUsersSection,
      Heap.load, hu, h0, h1, Heap.store, List.range_succ]

end UserAPI
